import Mathlib

/-!
# Verification of the holiday-counter vacation-day engine

Shallow embedding of `src/utils/date-utils.ts` from the `holiday-counter`
repository.  Conventions of the embedding:

* A calendar date is its day number (days since 1970-01-01, which was a
  Thursday, so JavaScript's `Date.getDay()` is `(day + 4) % 7`).  The UI
  feeds `YYYY-MM-DD` strings, which JavaScript parses to UTC midnight, so
  every date of interest is a whole number of days from the epoch and
  `getTime()` is `day * 86400000`.
* The external Hebrew-calendar library (hebcal) is an uninterpreted oracle
  `Oracle : Nat → Except Unit (Option (List Event))`: `.error` models
  `HebrewCalendar.getHolidaysOnDate` throwing, `.ok none` models it
  returning null/undefined, `.ok (some evs)` a list of events.
* A date-string argument is abstracted by `DateStr`: the empty string, a
  non-empty string `new Date` cannot parse, or a non-empty string parsing
  to a given day number.
* JavaScript numbers that hold fractional day values are modelled by `ℚ`;
  string interpolation of a number is modelled by `toString`.
-/

namespace HolidayCounter

/- Bit masks of hebcal's `flags` enum; only these four are consulted by the
code.  Each is a distinct single bit of the event's flag word. -/
namespace flags

def CHAG : Nat := 0x000001

def YOM_TOV_ENDS : Nat := 0x000004

def EREV : Nat := 0x100000

def CHOL_HAMOED : Nat := 0x200000

end flags

/-- A hebcal event: a flag bitset (`event.getFlags()`) and a description
string (`event.getDesc()`). -/
structure Event where
  flags : Nat
  desc : String
deriving DecidableEq

/-- `s.includes(pat)` on JavaScript strings: `pat` occurs as a contiguous
substring of `s`. -/
def strContains (pat s : String) : Bool :=
  decide (pat.toList <:+: s.toList)

/-- The external Hebrew-calendar lookup, per day number: it can throw
(`.error`), return null (`.ok none`), or return a list of events. -/
def Oracle : Type := Nat → Except Unit (Option (List Event))

/-- `HolidayInfo` from date-utils.ts; `date` holds the day number standing
for the `YYYY-MM-DD` string `currentDate.toISOString().split('T')[0]`. -/
structure HolidayInfo where
  date : Nat
  name : String
  isHalfDay : Bool
  isHolHamoed : Bool
deriving DecidableEq

/-- `VacationCalculation` from date-utils.ts. -/
structure VacationCalculation where
  totalDays : Nat
  workDays : Nat
  weekendDays : Nat
  holidayDays : Nat
  halfDays : Nat
  vacationDaysNeeded : ℚ
  holidays : List HolidayInfo
deriving DecidableEq

/-- A date-string argument: empty, non-empty but unparseable, or parsing to
a day number. -/
inductive DateStr where
  | empty : DateStr
  | garbled : DateStr
  | valid : Nat → DateStr
deriving DecidableEq

/-- `new Date(s)` followed by the `isNaN(getTime())` test: the day number
when the string parses, `none` otherwise. -/
def DateStr.parse : DateStr → Option Nat
  | .empty => none
  | .garbled => none
  | .valid d => some d

/-- `validateDateRange`: rejects an empty string (the `!startDate ||
!endDate` falsiness test), an unparseable string, and `start > end`;
otherwise yields the parsed pair. -/
def validateDateRange : DateStr → DateStr → Option (Nat × Nat)
  | .empty, _ => none
  | _, .empty => none
  | s, e =>
    match s.parse, e.parse with
    | none, _ => none
    | some _, none => none
    | some a, some b => if a > b then none else some (a, b)

/-- `getHebrewCalendarEvents`: the try/catch plus `|| []` wrapper — an
oracle throw or null result becomes the empty event list. -/
def getHebrewCalendarEvents (o : Oracle) (d : Nat) : List Event :=
  match o d with
  | .ok (some evs) => evs
  | .ok none => []
  | .error _ => []

/-- `isHalfDayEvent`: EREV flag, `Erev` in the description, or one of two
named observances. -/
def isHalfDayEvent (ev : Event) : Bool :=
  (ev.flags &&& flags.EREV != 0) ||
    strContains "Erev" ev.desc ||
    ev.desc == "Rosh Hashana LaBehemot" ||
    ev.desc == "Tu BiShvat"

/-- `isHolHamoedEvent`: the CHOL_HAMOED flag. -/
def isHolHamoedEvent (ev : Event) : Bool :=
  ev.flags &&& flags.CHOL_HAMOED != 0

/-- `isMajorHolidayEvent`: CHAG-without-EREV, or YOM_TOV_ENDS, or (when
enabled) CHOL_HAMOED, or one of three named days — and never anything whose
description contains `Erev`. -/
def isMajorHolidayEvent (ev : Event) (includeHolHamoed : Bool) : Bool :=
  ((ev.flags &&& flags.CHAG != 0 && !(ev.flags &&& flags.EREV != 0)) ||
      (ev.flags &&& flags.YOM_TOV_ENDS != 0) ||
      (includeHolHamoed && (ev.flags &&& flags.CHOL_HAMOED != 0)) ||
      ev.desc == "Yom HaZikaron" ||
      ev.desc == "Yom HaAtzmaut" ||
      ev.desc == "Yom Yerushalayim") &&
    !strContains "Erev" ev.desc

/-- Milliseconds per day, the divisor in `calculateDaysBetween`. -/
def msPerDay : Nat := 1000 * 60 * 60 * 24

/-- `Math.ceil(a / b)` for natural `a`, positive natural `b`. -/
def ceilDiv (a b : Nat) : Nat := (a + b - 1) / b

/-- `calculateDaysBetween`: validate, then
`Math.ceil(diffTime / msPerDay) + 1`. -/
def calculateDaysBetween (startDate endDate : DateStr) : Option Nat :=
  match validateDateRange startDate endDate with
  | none => none
  | some (a, b) =>
    let diffTime := (b - a) * msPerDay
    let diffDays := ceilDiv diffTime msPerDay + 1
    some diffDays

/-- `Date.getDay()` of a day number (1970-01-01 was a Thursday). -/
def getDay (d : Nat) : Nat := (d + 4) % 7

/-- `isWeekend`: Friday (5) or Saturday (6). -/
def isWeekend (d : Nat) : Bool :=
  getDay d == 5 || getDay d == 6

/-- `isJewishHalfDay`: some event of the date is a half-day event. -/
def isJewishHalfDay (o : Oracle) (d : Nat) : Bool :=
  (getHebrewCalendarEvents o d).any isHalfDayEvent

/-- `isJewishHoliday`: some event of the date is a major holiday. -/
def isJewishHoliday (o : Oracle) (d : Nat) (includeHolHamoed : Bool) : Bool :=
  (getHebrewCalendarEvents o d).any (fun ev => isMajorHolidayEvent ev includeHolHamoed)

/-- `getWorkDayValue`: weekend 0, else half day 0.5, else holiday 0,
else 1. -/
def getWorkDayValue (o : Oracle) (d : Nat) (includeHolHamoed : Bool) : ℚ :=
  if isWeekend d then 0
  else if isJewishHalfDay o d then 1/2
  else if isJewishHoliday o d includeHolHamoed then 0
  else 1

/-- The mutable counter block of `calculateVacationDaysDetailed`. -/
structure Tally where
  workDays : Nat
  weekendDays : Nat
  holidayDays : Nat
  halfDays : Nat
  vacationDaysNeeded : ℚ
deriving DecidableEq

/-- One iteration of the `while` body of `calculateVacationDaysDetailed`:
fetch `getWorkDayValue`, bump the counter picked by the if/else chain, add
the day value into `vacationDaysNeeded`. -/
def vacationStep (o : Oracle) (includeHolHamoed : Bool) (cur : Nat) (t : Tally) : Tally :=
  let dayValue := getWorkDayValue o cur includeHolHamoed
  let t2 :=
    if isWeekend cur then { t with weekendDays := t.weekendDays + 1 }
    else if isJewishHalfDay o cur then { t with halfDays := t.halfDays + 1 }
    else if isJewishHoliday o cur includeHolHamoed then { t with holidayDays := t.holidayDays + 1 }
    else { t with workDays := t.workDays + 1 }
  { t2 with vacationDaysNeeded := t2.vacationDaysNeeded + dayValue }

/-- The ascending list of day numbers the `while (currentDate <= end)`
loops visit: `a, a+1, ..., b` (empty when `a > b`), the loop running
`b + 1 - a` times. -/
def rangeDays (a b : Nat) : List Nat :=
  (List.range (b + 1 - a)).map (a + ·)

/-- The `while (currentDate <= end)` loop of `calculateVacationDaysDetailed`:
the step threaded over the visited days in ascending order. -/
def vacationRun (o : Oracle) (includeHolHamoed : Bool) (days : List Nat) (t : Tally) : Tally :=
  days.foldl (fun t cur => vacationStep o includeHolHamoed cur t) t

/-- The `events.forEach` callback of `getJewishHolidaysInRange`: push an
entry when the event passes the half-day-or-major-holiday test, the flags
computed afresh from the event. -/
def pushEvent (includeHolHamoed : Bool) (cur : Nat)
    (a : List HolidayInfo) (ev : Event) : List HolidayInfo :=
  if isHalfDayEvent ev || isMajorHolidayEvent ev includeHolHamoed then
    a ++ [{ date := cur, name := ev.desc,
            isHalfDay := isHalfDayEvent ev,
            isHolHamoed := isHolHamoedEvent ev }]
  else a

/-- The `events.forEach` traversal of one date's events. -/
def pushDayEvents (o : Oracle) (includeHolHamoed : Bool) (cur : Nat)
    (acc : List HolidayInfo) : List HolidayInfo :=
  (getHebrewCalendarEvents o cur).foldl (pushEvent includeHolHamoed cur) acc

/-- The `while (currentDate <= end)` loop of `getJewishHolidaysInRange`:
the push step threaded over the visited days in ascending order. -/
def holidaysRun (o : Oracle) (includeHolHamoed : Bool) (days : List Nat)
    (acc : List HolidayInfo) : List HolidayInfo :=
  days.foldl (fun a cur => pushDayEvents o includeHolHamoed cur a) acc

/-- `getJewishHolidaysInRange`: validate, then walk the range collecting
qualifying events. -/
def getJewishHolidaysInRange (o : Oracle) (startDate endDate : DateStr)
    (includeHolHamoed : Bool) : List HolidayInfo :=
  match validateDateRange startDate endDate with
  | none => []
  | some (a, b) => holidaysRun o includeHolHamoed (rangeDays a b) []

/-- `calculateVacationDaysDetailed`: validate, take `calculateDaysBetween
|| 0`, enumerate holidays, run the tally loop, assemble the record. -/
def calculateVacationDaysDetailed (o : Oracle) (startDate endDate : DateStr)
    (includeHolHamoed : Bool) : Option VacationCalculation :=
  match validateDateRange startDate endDate with
  | none => none
  | some (a, b) =>
    let totalDays := (calculateDaysBetween startDate endDate).getD 0
    let holidays := getJewishHolidaysInRange o startDate endDate includeHolHamoed
    let t := vacationRun o includeHolHamoed (rangeDays a b) ⟨0, 0, 0, 0, 0⟩
    some { totalDays := totalDays,
           workDays := t.workDays,
           weekendDays := t.weekendDays,
           holidayDays := t.holidayDays,
           halfDays := t.halfDays,
           vacationDaysNeeded := t.vacationDaysNeeded,
           holidays := holidays }

/- Hebrew pluralization constants (`HEBREW_DAY_FORMATS`). -/

def HEBREW_ONE : String := "יום אחד"

def HEBREW_TWO : String := "יומיים"

def HEBREW_MANY : String := "ימים"

/-- `formatDayCountHebrew`: non-integer or negative input falls back to the
plural form with the raw number interpolated; otherwise 1 and 2 get their
fixed forms and anything else the numeral plus plural noun. -/
def formatDayCountHebrew (days : ℚ) : String :=
  if !days.isInt || decide (days < 0) then toString days ++ " " ++ HEBREW_MANY
  else if days = 1 then HEBREW_ONE
  else if days = 2 then HEBREW_TWO
  else toString days ++ " " ++ HEBREW_MANY

/-- Modelled from the spec: the English formatter (`formatDayCount`,
imported by the unit tests from date-utils but absent from the sources;
the App component renders the same text inline) — the numeral followed by
`day` exactly when the count is 1 and by `days` otherwise, including 0. -/
def formatDayCount (n : ℤ) : String :=
  toString n ++ " " ++ (if n = 1 then "day" else "days")

/- Spec-side derived forms used to state the claims. -/

/-- The four day categories of the spec's Day Classifier. -/
inductive DayCategory where
  | weekend : DayCategory
  | halfDay : DayCategory
  | holiday : DayCategory
  | workday : DayCategory
deriving DecidableEq

/-- The spec's unified classification call: weekend, then half-day, then
holiday, then workday, first match winning. -/
def classifyDay (o : Oracle) (includeHolHamoed : Bool) (d : Nat) : DayCategory :=
  if isWeekend d then .weekend
  else if isJewishHalfDay o d then .halfDay
  else if isJewishHoliday o d includeHolHamoed then .holiday
  else .workday

/-- The work value the spec attaches to each category. -/
def categoryValue : DayCategory → ℚ
  | .weekend => 0
  | .halfDay => 1/2
  | .holiday => 0
  | .workday => 1

/-- The spec's description of the Holiday Enumerator's per-day output:
filter the date's events by half-day-or-major-holiday, record flags
independently, no deduplication. -/
def specDayHolidays (o : Oracle) (includeHolHamoed : Bool) (d : Nat) : List HolidayInfo :=
  ((getHebrewCalendarEvents o d).filter
      (fun ev => isHalfDayEvent ev || isMajorHolidayEvent ev includeHolHamoed)).map
    (fun ev => { date := d, name := ev.desc,
                 isHalfDay := isHalfDayEvent ev,
                 isHolHamoed := isHolHamoedEvent ev })

/- Oracles and sample values used by the witness theorems. -/

/-- An oracle reporting no holiday events for any date. -/
def quietOracle : Oracle := fun _ => .ok none

/-- An oracle that throws for every date. -/
def throwingOracle : Oracle := fun _ => .error ()

/-- An oracle with a single EREV event on day 4 (1970-01-05, a Monday). -/
def erevOracle : Oracle := fun d =>
  if d = 4 then .ok (some [{ flags := flags.EREV, desc := "Erev Pesach" }]) else .ok none

/-- The calculation the engine produces for the quiet oracle on days 0..6
(Thursday 1970-01-01 through Wednesday 1970-01-07). -/
def sampleCalc : VacationCalculation :=
  (calculateVacationDaysDetailed quietOracle (.valid 0) (.valid 6) true).getD
    ⟨0, 0, 0, 0, 0, 0, []⟩

/- Helper lemmas shared by the claim theorems. -/

theorem validateDateRange_some_iff (s e : DateStr) (a b : Nat) :
    validateDateRange s e = some (a, b) ↔
      s.parse = some a ∧ e.parse = some b ∧ a ≤ b := by
  cases s <;> cases e <;> simp [validateDateRange, DateStr.parse] <;> omega

theorem calculateDaysBetween_of_valid (s e : DateStr) (a b : Nat)
    (h : validateDateRange s e = some (a, b)) :
    calculateDaysBetween s e = some (b - a + 1) := by
  simp only [calculateDaysBetween, h, ceilDiv, msPerDay]
  congr 1
  omega

theorem vacationStep_sum (o : Oracle) (inc : Bool) (cur : Nat) (t : Tally) :
    (vacationStep o inc cur t).workDays + (vacationStep o inc cur t).weekendDays +
        (vacationStep o inc cur t).holidayDays + (vacationStep o inc cur t).halfDays =
      t.workDays + t.weekendDays + t.holidayDays + t.halfDays + 1 := by
  unfold vacationStep
  split_ifs <;> simp <;> omega

theorem vacationStep_vdn (o : Oracle) (inc : Bool) (cur : Nat) (t : Tally) :
    (vacationStep o inc cur t).vacationDaysNeeded =
      t.vacationDaysNeeded + getWorkDayValue o cur inc := by
  unfold vacationStep
  split_ifs <;> rfl

theorem getWorkDayValue_nonneg (o : Oracle) (d : Nat) (inc : Bool) :
    0 ≤ getWorkDayValue o d inc := by
  unfold getWorkDayValue
  split_ifs <;> norm_num

theorem getWorkDayValue_le_one (o : Oracle) (d : Nat) (inc : Bool) :
    getWorkDayValue o d inc ≤ 1 := by
  unfold getWorkDayValue
  split_ifs <;> norm_num

theorem vacationRun_sum (o : Oracle) (inc : Bool) :
    ∀ (days : List Nat) (t : Tally),
      (vacationRun o inc days t).workDays + (vacationRun o inc days t).weekendDays +
          (vacationRun o inc days t).holidayDays + (vacationRun o inc days t).halfDays =
        t.workDays + t.weekendDays + t.holidayDays + t.halfDays + days.length := by
  intro days
  induction days with
  | nil => intro t; simp [vacationRun]
  | cons d ds ih =>
    intro t
    have : vacationRun o inc (d :: ds) t = vacationRun o inc ds (vacationStep o inc d t) := rfl
    rw [this, ih, vacationStep_sum]
    simp
    omega

theorem vacationRun_vdn_bounds (o : Oracle) (inc : Bool) :
    ∀ (days : List Nat) (t : Tally),
      t.vacationDaysNeeded ≤ (vacationRun o inc days t).vacationDaysNeeded ∧
        (vacationRun o inc days t).vacationDaysNeeded ≤
          t.vacationDaysNeeded + days.length := by
  intro days
  induction days with
  | nil => intro t; simp [vacationRun]
  | cons d ds ih =>
    intro t
    have hrun : vacationRun o inc (d :: ds) t = vacationRun o inc ds (vacationStep o inc d t) := rfl
    obtain ⟨ih1, ih2⟩ := ih (vacationStep o inc d t)
    rw [hrun]
    rw [vacationStep_vdn] at ih1 ih2
    have h0 := getWorkDayValue_nonneg o d inc
    have h1 := getWorkDayValue_le_one o d inc
    constructor
    · linarith
    · simp only [List.length_cons]
      push_cast
      linarith

theorem rangeDays_length (a b : Nat) : (rangeDays a b).length = b + 1 - a := by
  simp [rangeDays]

theorem rangeDays_mem (a b : Nat) : ∀ d, d ∈ rangeDays a b ↔ a ≤ d ∧ d ≤ b := by
  intro d
  simp only [rangeDays, List.mem_map, List.mem_range]
  constructor
  · rintro ⟨i, hi, rfl⟩
    omega
  · rintro ⟨h1, h2⟩
    exact ⟨d - a, by omega, by omega⟩

theorem rangeDays_pairwise (a b : Nat) : (rangeDays a b).Pairwise (· < ·) := by
  unfold rangeDays
  rw [List.pairwise_map]
  exact (List.pairwise_lt_range _).imp (by omega)

theorem pushEvent_of_included (inc : Bool) (cur : Nat) (a : List HolidayInfo) (ev : Event)
    (h : (isHalfDayEvent ev || isMajorHolidayEvent ev inc) = true) :
    pushEvent inc cur a ev =
      a ++ [{ date := cur, name := ev.desc,
              isHalfDay := isHalfDayEvent ev,
              isHolHamoed := isHolHamoedEvent ev }] := by
  simp [pushEvent, h]

theorem pushEvent_of_excluded (inc : Bool) (cur : Nat) (a : List HolidayInfo) (ev : Event)
    (h : (isHalfDayEvent ev || isMajorHolidayEvent ev inc) = false) :
    pushEvent inc cur a ev = a := by
  simp [pushEvent, h]

theorem pushDayEvents_eq (o : Oracle) (inc : Bool) (cur : Nat) (acc : List HolidayInfo) :
    pushDayEvents o inc cur acc = acc ++ specDayHolidays o inc cur := by
  unfold pushDayEvents specDayHolidays
  generalize getHebrewCalendarEvents o cur = evs
  induction evs generalizing acc with
  | nil => simp
  | cons ev evs ih =>
    rw [List.foldl_cons, List.filter_cons]
    cases h : (isHalfDayEvent ev || isMajorHolidayEvent ev inc) with
    | false =>
      rw [pushEvent_of_excluded inc cur acc ev h, if_neg (by simp)]
      exact ih acc
    | true =>
      rw [pushEvent_of_included inc cur acc ev h, if_pos rfl, ih]
      simp

theorem holidaysRun_eq (o : Oracle) (inc : Bool) :
    ∀ (days : List Nat) (acc : List HolidayInfo),
      holidaysRun o inc days acc = acc ++ days.flatMap (specDayHolidays o inc) := by
  intro days
  induction days with
  | nil => intro acc; simp [holidaysRun]
  | cons d ds ih =>
    intro acc
    have hrun : holidaysRun o inc (d :: ds) acc =
        holidaysRun o inc ds (pushDayEvents o inc d acc) := rfl
    rw [hrun, ih, pushDayEvents_eq]
    simp [List.flatMap_cons]

theorem calculateVacationDaysDetailed_of_valid (o : Oracle) (s e : DateStr)
    (inc : Bool) (a b : Nat) (h : validateDateRange s e = some (a, b)) :
    calculateVacationDaysDetailed o s e inc =
      some { totalDays := b - a + 1,
             workDays := (vacationRun o inc (rangeDays a b) ⟨0, 0, 0, 0, 0⟩).workDays,
             weekendDays := (vacationRun o inc (rangeDays a b) ⟨0, 0, 0, 0, 0⟩).weekendDays,
             holidayDays := (vacationRun o inc (rangeDays a b) ⟨0, 0, 0, 0, 0⟩).holidayDays,
             halfDays := (vacationRun o inc (rangeDays a b) ⟨0, 0, 0, 0, 0⟩).halfDays,
             vacationDaysNeeded :=
               (vacationRun o inc (rangeDays a b) ⟨0, 0, 0, 0, 0⟩).vacationDaysNeeded,
             holidays := (rangeDays a b).flatMap (specDayHolidays o inc) } := by
  simp only [calculateVacationDaysDetailed, h, calculateDaysBetween_of_valid s e a b h,
    getJewishHolidaysInRange, Option.getD_some, holidaysRun_eq, List.nil_append]

/- Claim theorems. -/

/-- C1: for every pair of date strings accepted by validation and every
value of includeHolHamoed, the VacationCalculation returned by
calculateVacationDaysDetailed satisfies
totalDays = workDays + weekendDays + holidayDays + halfDays: every day of
the inclusive range is counted in exactly one of the four categories. -/
theorem calculateVacationDaysDetailed_partition (o : Oracle) (s e : DateStr)
    (inc : Bool) (v : VacationCalculation)
    (h : calculateVacationDaysDetailed o s e inc = some v) :
    v.totalDays = v.workDays + v.weekendDays + v.holidayDays + v.halfDays := by
  rcases hv : validateDateRange s e with _ | ⟨a, b⟩
  · rw [calculateVacationDaysDetailed, hv] at h
    exact absurd h (by simp)
  · have hab : a ≤ b := ((validateDateRange_some_iff s e a b).1 hv).2.2
    rw [calculateVacationDaysDetailed_of_valid o s e inc a b hv] at h
    obtain rfl := Option.some.inj h
    have hsum := vacationRun_sum o inc (rangeDays a b) ⟨0, 0, 0, 0, 0⟩
    rw [rangeDays_length] at hsum
    simp only at hsum ⊢
    omega

/-- C1 witness: a concrete seven-day range under the quiet oracle. -/
theorem calculateVacationDaysDetailed_partition_witness :
    sampleCalc.totalDays =
      sampleCalc.workDays + sampleCalc.weekendDays + sampleCalc.holidayDays +
        sampleCalc.halfDays :=
  calculateVacationDaysDetailed_partition quietOracle (.valid 0) (.valid 6) true
    sampleCalc rfl

/-- C2: for every pair of date strings accepted by validation and every
value of includeHolHamoed, every per-day value is one of 0, 0.5, 1 and the
accumulated vacationDaysNeeded lies between 0 and totalDays. -/
theorem vacationDaysNeeded_bounds (o : Oracle) (s e : DateStr)
    (inc : Bool) (v : VacationCalculation)
    (h : calculateVacationDaysDetailed o s e inc = some v) :
    (∀ d : Nat, getWorkDayValue o d inc = 0 ∨ getWorkDayValue o d inc = 1/2 ∨
        getWorkDayValue o d inc = 1) ∧
      0 ≤ v.vacationDaysNeeded ∧ v.vacationDaysNeeded ≤ (v.totalDays : ℚ) := by
  refine ⟨fun d => ?_, ?_⟩
  · unfold getWorkDayValue
    split_ifs <;> simp
  · rcases hv : validateDateRange s e with _ | ⟨a, b⟩
    · rw [calculateVacationDaysDetailed, hv] at h
      exact absurd h (by simp)
    · have hab : a ≤ b := ((validateDateRange_some_iff s e a b).1 hv).2.2
      rw [calculateVacationDaysDetailed_of_valid o s e inc a b hv] at h
      obtain rfl := Option.some.inj h
      have hb := vacationRun_vdn_bounds o inc (rangeDays a b) ⟨0, 0, 0, 0, 0⟩
      rw [rangeDays_length] at hb
      simp only at hb ⊢
      obtain ⟨hb1, hb2⟩ := hb
      constructor
      · exact le_trans (by norm_num) hb1
      · refine le_trans hb2 ?_
        rw [zero_add]
        have : (b + 1 - a : ℕ) = (b - a + 1 : ℕ) := by omega
        rw [this]

/-- C2 witness: the bounds instantiated on a concrete seven-day range. -/
theorem vacationDaysNeeded_bounds_witness :
    (∀ d : Nat, getWorkDayValue quietOracle d true = 0 ∨
        getWorkDayValue quietOracle d true = 1/2 ∨
        getWorkDayValue quietOracle d true = 1) ∧
      0 ≤ sampleCalc.vacationDaysNeeded ∧
        sampleCalc.vacationDaysNeeded ≤ (sampleCalc.totalDays : ℚ) :=
  vacationDaysNeeded_bounds quietOracle (.valid 0) (.valid 6) true sampleCalc rfl

/-- C3: for every pair accepted by validation, calculateDaysBetween is the
inclusive day count (integer day distance plus 1); in particular a range
from a date to itself counts 1 day. -/
theorem calculateDaysBetween_inclusive :
    (∀ (s e : DateStr) (a b : Nat), validateDateRange s e = some (a, b) →
        calculateDaysBetween s e = some (b - a + 1)) ∧
      ∀ d : Nat, calculateDaysBetween (.valid d) (.valid d) = some 1 := by
  refine ⟨calculateDaysBetween_of_valid, fun d => ?_⟩
  have h : validateDateRange (.valid d) (.valid d) = some (d, d) := by
    simp [validateDateRange, DateStr.parse]
  simpa using calculateDaysBetween_of_valid (.valid d) (.valid d) d d h

/-- C3 witness: a concrete range and a concrete single-day range. -/
theorem calculateDaysBetween_inclusive_witness :
    calculateDaysBetween (.valid 3) (.valid 9) = some 7 ∧
      calculateDaysBetween (.valid 5) (.valid 5) = some 1 :=
  ⟨calculateDaysBetween_inclusive.1 (.valid 3) (.valid 9) 3 9 (by decide),
    calculateDaysBetween_inclusive.2 5⟩

/-- C4: getWorkDayValue applies the precedence weekend, then half-day, then
holiday, then workday, first match winning; isWeekend holds exactly for
Fridays and Saturdays; the half-day predicate is EREV flag, an `Erev`
description, or one of two named observances; the major-holiday predicate
counts intermediate festival days only when includeHolHamoed is true. -/
theorem getWorkDayValue_precedence (o : Oracle) (d : Nat) (inc : Bool) :
    (isWeekend d = true ↔ getDay d = 5 ∨ getDay d = 6) ∧
      (isWeekend d = true → getWorkDayValue o d inc = 0) ∧
      (isWeekend d = false → isJewishHalfDay o d = true →
        getWorkDayValue o d inc = 1/2) ∧
      (isWeekend d = false → isJewishHalfDay o d = false →
        isJewishHoliday o d inc = true → getWorkDayValue o d inc = 0) ∧
      (isWeekend d = false → isJewishHalfDay o d = false →
        isJewishHoliday o d inc = false → getWorkDayValue o d inc = 1) ∧
      (isJewishHalfDay o d = true ↔
        ∃ ev ∈ getHebrewCalendarEvents o d, isHalfDayEvent ev = true) ∧
      (isJewishHoliday o d inc = true ↔
        ∃ ev ∈ getHebrewCalendarEvents o d, isMajorHolidayEvent ev inc = true) ∧
      (∀ ev : Event, isHalfDayEvent ev = true ↔
        (ev.flags &&& flags.EREV ≠ 0 ∨ strContains "Erev" ev.desc = true ∨
          ev.desc = "Rosh Hashana LaBehemot" ∨ ev.desc = "Tu BiShvat")) ∧
      (∀ ev : Event, isMajorHolidayEvent ev inc = true ↔
        (((ev.flags &&& flags.CHAG ≠ 0 ∧ ev.flags &&& flags.EREV = 0) ∨
            ev.flags &&& flags.YOM_TOV_ENDS ≠ 0 ∨
            (inc = true ∧ ev.flags &&& flags.CHOL_HAMOED ≠ 0) ∨
            ev.desc = "Yom HaZikaron" ∨ ev.desc = "Yom HaAtzmaut" ∨
            ev.desc = "Yom Yerushalayim") ∧
          strContains "Erev" ev.desc = false)) := by
  refine ⟨?_, ?_, ?_, ?_, ?_, ?_, ?_, ?_, ?_⟩
  · simp [isWeekend]
  · intro h1
    simp [getWorkDayValue, h1]
  · intro h1 h2
    simp [getWorkDayValue, h1, h2]
  · intro h1 h2 h3
    simp [getWorkDayValue, h1, h2, h3]
  · intro h1 h2 h3
    simp [getWorkDayValue, h1, h2, h3]
  · simp [isJewishHalfDay, List.any_eq_true]
  · simp [isJewishHoliday, List.any_eq_true]
  · intro ev
    simp [isHalfDayEvent, or_assoc]
  · intro ev
    simp only [isMajorHolidayEvent, Bool.and_eq_true, Bool.or_eq_true,
      Bool.not_eq_true', bne_iff_ne, bne_eq_false_iff_eq, ne_eq, beq_iff_eq]
    tauto

/-- C4 witness: the precedence instantiated at a Friday, a Monday with an
EREV event, and the event predicates at that event. -/
theorem getWorkDayValue_precedence_witness :
    getWorkDayValue erevOracle 1 true = 0 ∧
      getWorkDayValue erevOracle 4 true = 1/2 ∧
      getWorkDayValue quietOracle 4 true = 1 ∧
      (isHalfDayEvent { flags := flags.EREV, desc := "Erev Pesach" } = true ↔
        ({ flags := flags.EREV, desc := "Erev Pesach" } : Event).flags &&& flags.EREV ≠ 0 ∨
          strContains "Erev" "Erev Pesach" = true ∨
          ("Erev Pesach" : String) = "Rosh Hashana LaBehemot" ∨
          ("Erev Pesach" : String) = "Tu BiShvat") :=
  ⟨(getWorkDayValue_precedence erevOracle 1 true).2.1 (by decide),
    (getWorkDayValue_precedence erevOracle 4 true).2.2.1 (by decide) (by decide),
    (getWorkDayValue_precedence quietOracle 4 true).2.2.2.2.1 (by decide) (by decide)
      (by decide),
    (getWorkDayValue_precedence quietOracle 0 true).2.2.2.2.2.2.2.1
      { flags := flags.EREV, desc := "Erev Pesach" }⟩

/-- C5: the category tallied by the if-chain of the aggregation loop and
the value accumulated from getWorkDayValue agree: the two independent
predicate evaluations are equivalent to one classification call returning
both the category and its work value. -/
theorem vacationStep_classifies (o : Oracle) (inc : Bool) (d : Nat) (t : Tally) :
    getWorkDayValue o d inc = categoryValue (classifyDay o inc d) ∧
      vacationStep o inc d t =
        { workDays := t.workDays + (if classifyDay o inc d = .workday then 1 else 0),
          weekendDays := t.weekendDays + (if classifyDay o inc d = .weekend then 1 else 0),
          holidayDays := t.holidayDays + (if classifyDay o inc d = .holiday then 1 else 0),
          halfDays := t.halfDays + (if classifyDay o inc d = .halfDay then 1 else 0),
          vacationDaysNeeded :=
            t.vacationDaysNeeded + categoryValue (classifyDay o inc d) } := by
  cases h1 : isWeekend d <;> cases h2 : isJewishHalfDay o d <;>
    cases h3 : isJewishHoliday o d inc <;>
      simp [getWorkDayValue, classifyDay, vacationStep, categoryValue, h1, h2, h3]

/-- C6: empty, unparseable, or out-of-order input yields the null/absent
result from calculateDaysBetween and calculateVacationDaysDetailed and the
empty list from getJewishHolidaysInRange (all three are total functions, so
no exception escapes them). -/
theorem invalid_input_absent (o : Oracle) (inc : Bool) (s e : DateStr)
    (h : s = .empty ∨ e = .empty ∨ s.parse = none ∨ e.parse = none ∨
      ∃ a b : Nat, s.parse = some a ∧ e.parse = some b ∧ b < a) :
    calculateDaysBetween s e = none ∧
      calculateVacationDaysDetailed o s e inc = none ∧
      getJewishHolidaysInRange o s e inc = [] := by
  have hv : validateDateRange s e = none := by
    rcases hval : validateDateRange s e with _ | ⟨a, b⟩
    · rfl
    · obtain ⟨hs, he, hab⟩ := (validateDateRange_some_iff s e a b).1 hval
      rcases h with h | h | h | h | ⟨x, y, hx, hy, hlt⟩
      · rw [h] at hs; exact absurd hs (by simp [DateStr.parse])
      · rw [h] at he; exact absurd he (by simp [DateStr.parse])
      · rw [h] at hs; exact absurd hs (by simp)
      · rw [h] at he; exact absurd he (by simp)
      · rw [hx] at hs
        rw [hy] at he
        obtain rfl := Option.some.inj hs
        obtain rfl := Option.some.inj he
        omega
  refine ⟨?_, ?_, ?_⟩
  · rw [calculateDaysBetween, hv]
  · rw [calculateVacationDaysDetailed, hv]
  · rw [getJewishHolidaysInRange, hv]

/-- C6 witness: an empty start, an unparseable end, and an out-of-order
pair all yield the absent results. -/
theorem invalid_input_absent_witness :
    (calculateDaysBetween .empty (.valid 9) = none ∧
        calculateVacationDaysDetailed quietOracle .empty (.valid 9) true = none ∧
        getJewishHolidaysInRange quietOracle .empty (.valid 9) true = []) ∧
      (calculateDaysBetween (.valid 0) .garbled = none ∧
          calculateVacationDaysDetailed quietOracle (.valid 0) .garbled true = none ∧
          getJewishHolidaysInRange quietOracle (.valid 0) .garbled true = []) ∧
      calculateDaysBetween (.valid 9) (.valid 3) = none ∧
        calculateVacationDaysDetailed quietOracle (.valid 9) (.valid 3) true = none ∧
        getJewishHolidaysInRange quietOracle (.valid 9) (.valid 3) true = [] :=
  ⟨invalid_input_absent quietOracle true .empty (.valid 9) (Or.inl rfl),
    invalid_input_absent quietOracle true (.valid 0) .garbled
      (Or.inr (Or.inr (Or.inr (Or.inl rfl)))),
    invalid_input_absent quietOracle true (.valid 9) (.valid 3)
      (Or.inr (Or.inr (Or.inr (Or.inr ⟨9, 3, rfl, rfl, by omega⟩))))⟩

/-- C7: a date on which the oracle throws is treated as having no holiday
events: getWorkDayValue classifies it by the weekend/workday rules alone,
the holiday enumeration contributes nothing for it and continues with the
subsequent dates, and (all functions being total) no oracle error
propagates. -/
theorem oracle_error_recovery (o : Oracle) (inc : Bool) (d : Nat)
    (acc : List HolidayInfo) (h : o d = .error ()) :
    getHebrewCalendarEvents o d = [] ∧
      getWorkDayValue o d inc = (if isWeekend d then 0 else 1) ∧
      specDayHolidays o inc d = [] ∧
      pushDayEvents o inc d acc = acc ∧
      ∀ rest : List Nat, holidaysRun o inc (d :: rest) acc = holidaysRun o inc rest acc := by
  have hev : getHebrewCalendarEvents o d = [] := by
    rw [getHebrewCalendarEvents, h]
  have hpush : pushDayEvents o inc d acc = acc := by
    rw [pushDayEvents, hev]
    rfl
  refine ⟨hev, ?_, ?_, hpush, ?_⟩
  · rw [getWorkDayValue]
    simp [isJewishHalfDay, isJewishHoliday, hev]
  · rw [specDayHolidays, hev]
    rfl
  · intro rest
    show holidaysRun o inc rest (pushDayEvents o inc d acc) = holidaysRun o inc rest acc
    rw [hpush]

/-- C7 witness: the recovery applied to the always-throwing oracle on a
Monday with a non-empty accumulator and remaining range. -/
theorem oracle_error_recovery_witness :
    getHebrewCalendarEvents throwingOracle 4 = [] ∧
      getWorkDayValue throwingOracle 4 true = (if isWeekend 4 then 0 else 1) ∧
      specDayHolidays throwingOracle true 4 = [] ∧
      pushDayEvents throwingOracle true 4 [⟨0, "x", false, false⟩] =
        [⟨0, "x", false, false⟩] ∧
      ∀ rest : List Nat,
        holidaysRun throwingOracle true (4 :: rest) [⟨0, "x", false, false⟩] =
          holidaysRun throwingOracle true rest [⟨0, "x", false, false⟩] :=
  oracle_error_recovery throwingOracle true 4 [⟨0, "x", false, false⟩] rfl

/-- C8: on a validated range, getJewishHolidaysInRange equals the
concatenation, over the ascending day list, of each date's events filtered
by the half-day-or-major-holiday test and mapped to entries whose isHalfDay
and isHolHamoed flags are computed independently of which predicate caused
inclusion, with no deduplication; the day list is strictly ascending and
holds exactly the days of the inclusive range. -/
theorem getJewishHolidaysInRange_spec (o : Oracle) (s e : DateStr)
    (a b : Nat) (inc : Bool) (h : validateDateRange s e = some (a, b)) :
    getJewishHolidaysInRange o s e inc =
        (rangeDays a b).flatMap (specDayHolidays o inc) ∧
      (rangeDays a b).Pairwise (· < ·) ∧
      ∀ d : Nat, d ∈ rangeDays a b ↔ a ≤ d ∧ d ≤ b := by
  refine ⟨?_, rangeDays_pairwise a b, rangeDays_mem a b⟩
  simp only [getJewishHolidaysInRange, h]
  rw [holidaysRun_eq]
  rfl

/-- C8 witness: the enumeration evaluated over a three-day range around an
EREV event. -/
theorem getJewishHolidaysInRange_spec_witness :
    getJewishHolidaysInRange erevOracle (.valid 3) (.valid 5) true =
        (rangeDays 3 5).flatMap (specDayHolidays erevOracle true) ∧
      (rangeDays 3 5).Pairwise (· < ·) ∧
      ∀ d : Nat, d ∈ rangeDays 3 5 ↔ 3 ≤ d ∧ d ≤ 5 :=
  getJewishHolidaysInRange_spec erevOracle (.valid 3) (.valid 5) 3 5 true (by decide)

/-- C9: formatDayCountHebrew is a pure total function mapping 1 and 2 to
their fixed forms, any other non-negative integer to the numeral plus
plural noun, and any non-integer or negative input to the plural fallback
with the raw number interpolated. -/
theorem formatDayCountHebrew_forms :
    formatDayCountHebrew 1 = HEBREW_ONE ∧
      formatDayCountHebrew 2 = HEBREW_TWO ∧
      (∀ q : ℚ, q.isInt = true → 0 ≤ q → q ≠ 1 → q ≠ 2 →
        formatDayCountHebrew q = toString q ++ " " ++ HEBREW_MANY) ∧
      ∀ q : ℚ, q.isInt = false ∨ q < 0 →
        formatDayCountHebrew q = toString q ++ " " ++ HEBREW_MANY := by
  refine ⟨by decide, by decide, ?_, ?_⟩
  · intro q hint hpos h1 h2
    rw [formatDayCountHebrew, if_neg, if_neg h1, if_neg h2]
    simp [hint, decide_eq_false (not_lt.2 hpos)]
  · intro q hq
    rw [formatDayCountHebrew, if_pos]
    rcases hq with hq | hq
    · simp [hq]
    · simp [decide_eq_true hq]

/-- C9 witness: the integer branch at 3 and the fallback branch at -1. -/
theorem formatDayCountHebrew_forms_witness :
    formatDayCountHebrew 3 = toString (3 : ℚ) ++ " " ++ HEBREW_MANY ∧
      formatDayCountHebrew (-1) = toString (-1 : ℚ) ++ " " ++ HEBREW_MANY :=
  ⟨formatDayCountHebrew_forms.2.2.1 3 (by decide) (by decide) (by decide) (by decide),
    formatDayCountHebrew_forms.2.2.2 (-1) (Or.inr (by decide))⟩

/-- C10: the English formatter maps the integer 1 to "1 day" and every
other integer, 0 included, to the numeral followed by " days". -/
theorem formatDayCount_spec :
    formatDayCount 1 = "1 day" ∧
      (∀ n : ℤ, n ≠ 1 → formatDayCount n = toString n ++ " " ++ "days") ∧
      formatDayCount 0 = "0 days" ∧
      formatDayCount 2 = "2 days" ∧
      formatDayCount 365 = "365 days" := by
  refine ⟨by decide, ?_, by decide, by decide, by decide⟩
  intro n h
  rw [formatDayCount, if_neg h]

/-- C10 witness: the general integer branch applied at 7. -/
theorem formatDayCount_spec_witness :
    formatDayCount 7 = toString (7 : ℤ) ++ " " ++ "days" :=
  formatDayCount_spec.2.1 7 (by decide)

end HolidayCounter
